import Mathlib

/-!
Verification of the NBA draft point-guard pipeline (streamlit_app.py).

The pipeline's core functions are embedded as pure Lean functions over
lists of characters (Python strings) and lists of records (pandas
DataFrames).  Strings are `List Char`; optional values (`None`) are
`Option`; the floating-point column means are modelled as exact
rationals; the pandas group/sort machinery is modelled with explicit
insertion sorts (pandas `groupby` with its default `sort=True` orders
group keys ascending; `sort_values`, whose default quicksort guarantees
only a sorted permutation and no tie order, is modelled by one
admissible such permutation, and only tie-order-insensitive properties
are asserted of it).
-/

namespace NbaBi

/-! ### String primitives (Python `in`, `startswith`, `lower`, `strip`) -/

/-- Python `s.startswith(pat)` on character lists. -/
def strStarts : List Char → List Char → Bool
  | [], _ => true
  | _ :: _, [] => false
  | p :: ps, c :: cs => p == c && strStarts ps cs

/-- Python `pat in s` (substring containment) on character lists. -/
def strContains (pat : List Char) : List Char → Bool
  | [] => strStarts pat []
  | c :: cs => strStarts pat (c :: cs) || strContains pat cs

/-- Specification-side substring predicate: `pat` occurs contiguously in `s`. -/
def SubStr (pat s : List Char) : Prop := ∃ u v, s = u ++ (pat ++ v)

/-- Python `str.strip()` : drop whitespace from both ends. -/
def stripStr (s : List Char) : List Char :=
  ((s.dropWhile Char.isWhitespace).reverse.dropWhile Char.isWhitespace).reverse

/-! ### Lexicographic order on strings (Python `str` comparison by code point) -/

/-- Lexicographic less-or-equal on character lists, by code point,
matching Python string comparison (used by pandas to sort group keys). -/
def strLe : List Char → List Char → Bool
  | [], _ => true
  | _ :: _, [] => false
  | a :: as, b :: bs =>
    if a < b then true
    else if b < a then false
    else strLe as bs

/-! ### Insertion sort (used to model pandas ordering) -/

/-- Insert `a` into `l` before the first element `b` with `le a b`. -/
def ordIns (le : α → α → Bool) (a : α) : List α → List α
  | [] => [a]
  | b :: l => if le a b then a :: b :: l else b :: ordIns le a l

/-- Insertion sort. -/
def insSort (le : α → α → Bool) : List α → List α
  | [] => []
  | a :: l => ordIns le a (insSort le l)

/-! ### Data model for the Aggregator (`get_avg_pg_height_by_team`) -/

/-- One row of the master DataFrame
(columns `year, team, player_name, position_str, height_inches, is_pg`).
Optional columns model nullable pandas cells; the float height column is
modelled as an exact rational. -/
structure PRecord where
  year : Int
  team : List Char
  player_name : Option (List Char)
  position_str : Option (List Char)
  height_inches : Option ℚ
  is_pg : Bool
deriving DecidableEq

/-- One output row of the Aggregator
(columns `team, avg_height_in, count_pgs`); `avg_height_in = none`
models the NaN produced when a group has no known height. -/
structure TeamAgg where
  team : List Char
  avg_height_in : Option ℚ
  count_pgs : Nat
deriving DecidableEq

/-- `df_filtered[df_filtered['year'] >= year_min]` (skipped when the bound is absent). -/
def filterYearMin (ymin : Option Int) (l : List PRecord) : List PRecord :=
  match ymin with
  | none => l
  | some y => l.filter (fun r => decide (y ≤ r.year))

/-- `df_filtered[df_filtered['year'] <= year_max]` (skipped when the bound is absent). -/
def filterYearMax (ymax : Option Int) (l : List PRecord) : List PRecord :=
  match ymax with
  | none => l
  | some y => l.filter (fun r => decide (r.year ≤ y))

/-- The inclusive-interval predicate `[year_min, year_max]`,
an absent bound being unbounded on that side. -/
def inRangeB (ymin ymax : Option Int) (r : PRecord) : Bool :=
  (match ymin with
   | none => true
   | some y => decide (y ≤ r.year)) &&
  (match ymax with
   | none => true
   | some y => decide (r.year ≤ y))

/-- The team names in first-appearance order (the distinct values of the
`team` column in row order). -/
def firstSeenTeams (l : List PRecord) : List (List Char) :=
  l.foldl (fun acc r => if r.team ∈ acc then acc else acc ++ [r.team]) []

/-- One group's aggregation:
`avg_height_in=('height_inches','mean')` (pandas mean skips nulls, and an
all-null group yields NaN, modelled as `none`);
`count_pgs=('player_name','count')` (pandas `count` counts non-null cells). -/
def groupAgg (l : List PRecord) (t : List Char) : TeamAgg :=
  let g := l.filter (fun r => r.team == t)
  let hs := g.filterMap (fun r => r.height_inches)
  { team := t
    avg_height_in := if hs.isEmpty then none else some (hs.sum / (hs.length : ℚ))
    count_pgs := (g.filter (fun r => r.player_name.isSome)).length }

/-- Sort key for `sort_values('avg_height_in', ascending=False)`:
`a` may come no later than `b` iff `a`'s average is at least `b`'s,
with NaN (`none`) placed last (pandas `na_position='last'`). -/
def aggLeB (a b : TeamAgg) : Bool :=
  match a.avg_height_in, b.avg_height_in with
  | some x, some y => decide (y ≤ x)
  | some _, none => true
  | none, some _ => false
  | none, none => true

/-- The grouping/aggregation/sorting tail of `get_avg_pg_height_by_team`,
applied to the fully filtered rows: empty check, `groupby('team')` (keys
sorted ascending, pandas default `sort=True`), per-group aggregation, then
`sort_values` descending on the average.  The pandas default
`kind='quicksort'` guarantees a sorted permutation but no particular
order among rows tied on the key; the insertion sort here is one
admissible such permutation, and the theorems assert only properties
that hold for every sorted permutation (never a tie order). -/
def aggCore (d3 : List PRecord) : List TeamAgg :=
  if d3.isEmpty then []
  else insSort aggLeB ((insSort strLe (firstSeenTeams d3)).map (groupAgg d3))

/-- `get_avg_pg_height_by_team(df, year_min, year_max)`:
copy, filter by the year bounds in sequence, keep rows with
`is_pg == True`, return the empty frame if nothing is left, else group by
team and sort by average height descending. -/
def get_avg_pg_height_by_team (df : List PRecord) (ymin ymax : Option Int) :
    List TeamAgg :=
  aggCore (((filterYearMax ymax (filterYearMin ymin df))).filter (fun r => r.is_pg))

/-! ### Store-level embedding of the Aggregator call (for the frame claim)

Every pandas operation in `get_avg_pg_height_by_team` returns a fresh
DataFrame (`df.copy()`, boolean-mask selection, `groupby/agg`,
`sort_values`); none writes through to its operand.  We model the heap of
DataFrames as a list of frames addressed by index, where each step
allocates a new frame, and show the caller's frame is untouched. -/

/-- Read the frame at handle `h` (out-of-range handles read as empty). -/
def readF (s : List (List PRecord)) (h : Nat) : List PRecord := s.getD h []

/-- `get_avg_pg_height_by_team` as a store program: `df.copy()` allocates,
and each rebinding of `df_filtered` to a selection result allocates. -/
def agg_exec (s : List (List PRecord)) (hdf : Nat) (ymin ymax : Option Int) :
    List (List PRecord) × List TeamAgg :=
  let s1 := s ++ [readF s hdf]
  let h1 := s.length
  let s2 := s1 ++ [filterYearMin ymin (readF s1 h1)]
  let h2 := s1.length
  let s3 := s2 ++ [filterYearMax ymax (readF s2 h2)]
  let h3 := s2.length
  let s4 := s3 ++ [(readF s3 h3).filter (fun r => r.is_pg)]
  let h4 := s3.length
  (s4, aggCore (readF s4 h4))

/-! ### Height Parser (`re.search(r'(\d+)-(\d+)', text)` inside `scrape_player_details`) -/

/-- `int()` of a run of decimal digit characters. -/
def digitsToNat (l : List Char) : Nat :=
  l.foldl (fun n c => 10 * n + (c.toNat - 48)) 0

/-- Attempt the pattern `(\d+)-(\d+)` anchored at the start of `s`:
a maximal nonempty digit run, a hyphen, then a maximal nonempty digit
run (the regex groups are greedy). -/
def matchAt (s : List Char) : Option (Nat × Nat) :=
  match s.dropWhile (fun c => c.isDigit) with
  | c :: r2 =>
    if c = '-' then
      if (s.takeWhile (fun c => c.isDigit)).isEmpty then none
      else if (r2.takeWhile (fun c => c.isDigit)).isEmpty then none
      else some (digitsToNat (s.takeWhile (fun c => c.isDigit)),
                 digitsToNat (r2.takeWhile (fun c => c.isDigit)))
    else none
  | [] => none

/-- `re.search`: try the pattern at each position, leftmost first. -/
def searchFI : List Char → Option (Nat × Nat)
  | [] => none
  | c :: cs =>
    match matchAt (c :: cs) with
    | some v => some v
    | none => searchFI cs

/-- The Height Parser: `feet*12 + inches` from the first `<digits>-<digits>`
match, `none` when the pattern is absent.  Totality of this function models
the parser raising no exception. -/
def heightOf (s : List Char) : Option Nat :=
  (searchFI s).map (fun v => v.1 * 12 + v.2)

/-- A nonempty all-digit character run. -/
def DigitsNE (l : List Char) : Prop := l ≠ [] ∧ ∀ c ∈ l, c.isDigit = true

/-- Specification-side: `s` contains some substring `<digits>-<digits>`. -/
def HasPat (s : List Char) : Prop :=
  ∃ a f i b, s = a ++ (f ++ ('-' :: (i ++ b))) ∧ DigitsNE f ∧ DigitsNE i

/-- Specification-side: `v` is the value `feet*12 + inches` of the first
match of `<digits>-<digits>` in `s` — a decomposition at the leftmost
possible start, with the inches run taken maximally (greedy) and read
literally as a decimal number. -/
def FirstMatchVal (s : List Char) (v : Nat) : Prop :=
  ∃ a f i b, s = a ++ (f ++ ('-' :: (i ++ b))) ∧ DigitsNE f ∧ DigitsNE i ∧
    (∀ c, b.head? = some c → c.isDigit = false) ∧
    v = digitsToNat f * 12 + digitsToNat i ∧
    ∀ a2 f2 i2 b2,
      (s = a2 ++ (f2 ++ ('-' :: (i2 ++ b2))) ∧ DigitsNE f2 ∧ DigitsNE i2) →
      a.length ≤ a2.length

/-! ### Position Classifier (`is_point_guard`) -/

/-- `is_point_guard(position_str)`: false on `None` or the empty string
(Python falsiness); otherwise lowercase and test the substring rules in
order. -/
def is_point_guard (pos : Option (List Char)) : Bool :=
  match pos with
  | none => false
  | some s =>
    if s.isEmpty then false
    else
      let p := s.map Char.toLower
      if strContains ("point guard".data) p || strContains ("pg".data) p then true
      else if strContains ("guard".data) p && !strContains ("forward".data) p &&
              !strContains ("center".data) p then true
      else false

/-! ### Query Year Extractor (`parse_user_question`) -/

/-- Python regex word character (`\w`, ASCII fragment). -/
def isWordChar (c : Char) : Bool := c.isAlphanum || c == '_'

/-- The `\b` test before a match, given the character preceding the
current position (`none` at the start of the text). -/
def prevOk : Option Char → Bool
  | none => true
  | some c => !isWordChar c

/-- The alternation `(19|20)` at the head of a candidate. -/
def yearStart (c1 c2 : Char) : Bool :=
  (c1 == '1' && c2 == '9') || (c1 == '2' && c2 == '0')

/-- The `\b` test after a match: end of text or a non-word character. -/
def boundAfter : List Char → Bool
  | [] => true
  | c :: _ => !isWordChar c

/-- The numeric value of a matched 4-digit year. -/
def yearVal (c1 c2 c3 c4 : Char) : Nat := digitsToNat [c1, c2, c3, c4]

/-- `re.findall(r'(\b(19|20)\d{2}\b)', text)` as a left-to-right
non-overlapping scanner; `prev` is the character just before the current
position. -/
def findYears : Option Char → List Char → List Nat
  | _, [] => []
  | prev, c1 :: c2 :: c3 :: c4 :: rest =>
    if prevOk prev && yearStart c1 c2 && c3.isDigit && c4.isDigit &&
       boundAfter rest
    then yearVal c1 c2 c3 c4 :: findYears (some c4) rest
    else findYears (some c1) (c2 :: c3 :: c4 :: rest)
  | _, c1 :: t1 => findYears (some c1) t1

/-- The result record of `parse_user_question`. -/
structure YearRangeQuery where
  year_min : Option Nat
  year_max : Option Nat
  found_year_range : Bool
deriving DecidableEq

/-- `parse_user_question(question)`: find all years, return no range when
none matched, else the min and max of the matched years. -/
def parse_user_question (q : List Char) : YearRangeQuery :=
  match findYears none q with
  | [] => { year_min := none, year_max := none, found_year_range := false }
  | y :: ys =>
    { year_min := some (ys.foldl Nat.min y)
      year_max := some (ys.foldl Nat.max y)
      found_year_range := true }

/-- The `\b` condition to the left of a candidate match that follows the
prefix `a` of the text, where `prev` precedes the whole text. -/
def boundBefore (prev : Option Char) (a : List Char) : Bool :=
  match a.getLast? with
  | some c => !isWordChar c
  | none => prevOk prev

/-- Specification-side: the text `s` (preceded by `prev`) contains a
word-delimited 4-digit year starting with 19 or 20. -/
def HasYearFrom (prev : Option Char) (s : List Char) : Prop :=
  ∃ a c1 c2 c3 c4 b, s = a ++ (c1 :: c2 :: c3 :: c4 :: b) ∧
    yearStart c1 c2 = true ∧ c3.isDigit = true ∧ c4.isDigit = true ∧
    boundAfter b = true ∧ boundBefore prev a = true

/-! ### Draft Row Normalizer (`scrape_draft_data`) and Profile Extractor
(`scrape_player_details`)

The fetch and HTML-parsing collaborators are modelled by their results:
a status code and an optional parsed structure exposing exactly the
primitives the code uses (visible text of a cell, class list of a row,
the first anchor of a cell and its `href` attribute, the labelled
`<strong>` entries of the meta block). -/

/-- The first `<a>` descendant of a cell: its `href` attribute, if any. -/
structure Anchor where
  href : Option (List Char)
deriving DecidableEq

/-- A table cell (`<th>` or `<td>`): its visible text and first anchor. -/
structure Cell where
  text : List Char
  anchor : Option Anchor
deriving DecidableEq

/-- A `<tr>` row: its `class` attribute values (empty when the attribute
is absent) and its cells. -/
structure Row where
  classes : List (List Char)
  cells : List Cell
deriving DecidableEq

/-- The `<table id='stats'>` element: its `<tbody>` child (with the
direct `<tr>` children), when present. -/
structure StatsTable where
  tbody : Option (List Row)
deriving DecidableEq

/-- A fetched draft page: HTTP status and the stats table, if the parsed
document has one. -/
structure DraftResp where
  status : Nat
  table : Option StatsTable
deriving DecidableEq

/-- One normalized draft record (dict appended to `data_rows`). -/
structure DraftRow where
  year : Int
  pick : List Char
  team : List Char
  player_name : List Char
  player_link : Option (List Char)
deriving DecidableEq

/-- `if a_tag and a_tag.get('href'): link = a_tag['href']` — the link is
recorded only when the cell has an anchor whose `href` is present and
non-empty (Python truthiness). -/
def rowLink (c : Cell) : Option (List Char) :=
  match c.anchor with
  | none => none
  | some a =>
    match a.href with
    | none => none
    | some h => if h.isEmpty then none else some h

/-- Specification-side view of one kept row: the record built verbatim
from the first three cells (reading out of range gives an empty default
cell; kept rows have at least three cells, so it is never used). -/
def normRow (year : Int) (r : Row) : DraftRow where
  year := year
  pick := (r.cells.getD 0 ⟨[], none⟩).text
  team := (r.cells.getD 1 ⟨[], none⟩).text
  player_name := (r.cells.getD 2 ⟨[], none⟩).text
  player_link := rowLink (r.cells.getD 2 ⟨[], none⟩)

/-- The row loop of `scrape_draft_data`: skip repeated-header rows
(`'thead' in row.attrs['class']`) and rows with fewer than three cells,
else append the record built from the first three cells. -/
def processRows (year : Int) : List Row → List DraftRow
  | [] => []
  | r :: rs =>
    if ("thead".data) ∈ r.classes then processRows year rs
    else
      match r.cells with
      | c0 :: c1 :: c2 :: _ =>
        { year := year, pick := c0.text, team := c1.text,
          player_name := c2.text, player_link := rowLink c2 } :: processRows year rs
      | _ => processRows year rs

/-- `scrape_draft_data(year)` given the fetched response: non-200 status
or missing stats table give `[]`; a stats table without a `<tbody>` makes
`table.find('tbody')` return `None` and the subsequent `.find_all` raise
`AttributeError`, modelled as `Except.error ()`. -/
def scrape_draft_data (year : Int) (resp : DraftResp) :
    Except Unit (List DraftRow) :=
  if resp.status ≠ 200 then Except.ok []
  else
    match resp.table with
    | none => Except.ok []
    | some t =>
      match t.tbody with
      | none => Except.error ()
      | some rows => Except.ok (processRows year rows)

/-- One `<strong>` tag of the meta block: its own stripped text and the
visible text of its parent element. -/
structure StrongEntry where
  label : List Char
  parentText : List Char
deriving DecidableEq

/-- A fetched player page: HTTP status and the `div#meta` block's
`<strong>` entries, if the block is present. -/
structure PlayerResp where
  status : Nat
  meta : Option (List StrongEntry)
deriving DecidableEq

/-- Python `text.replace("Position:", "")` (all occurrences,
left to right). -/
def stripPositionLabel : List Char → List Char
  | [] => []
  | c :: cs =>
    if strStarts ("Position:".data) (c :: cs)
    then stripPositionLabel ((c :: cs).drop 9)
    else c :: stripPositionLabel cs
  termination_by s => s.length
  decreasing_by
    all_goals simp
    omega

/-- `scrape_player_details(relative_url)` given the fetched response:
non-200 status or a missing meta block yield both fields unknown;
otherwise fold over the `<strong>` entries, taking the position from a
`Position:` label's parent text and the height from running the Height
Parser on a `Height:` label's parent text (a failed height match leaves
the previous value). -/
def scrape_player_details (resp : PlayerResp) :
    Option (List Char) × Option Nat :=
  if resp.status ≠ 200 then (none, none)
  else
    match resp.meta with
    | none => (none, none)
    | some entries =>
      entries.foldl
        (fun acc e =>
          let acc1 :=
            if strContains ("Position:".data) e.label
            then (some (stripStr (stripPositionLabel e.parentText)), acc.2)
            else acc
          if strContains ("Height:".data) e.label
          then
            match searchFI e.parentText with
            | some v => (acc1.1, some (v.1 * 12 + v.2))
            | none => acc1
          else acc1)
        (none, none)

/-! ## Helper lemmas -/

theorem strStarts_iff (p : List Char) : ∀ s, strStarts p s = true ↔ ∃ v, s = p ++ v := by
  induction p with
  | nil => intro s; simp [strStarts]
  | cons a ps ih =>
    intro s
    cases s with
    | nil => simp [strStarts]
    | cons c cs =>
      simp only [strStarts, Bool.and_eq_true, beq_iff_eq, ih, List.cons_append]
      constructor
      · rintro ⟨rfl, v, rfl⟩
        exact ⟨v, rfl⟩
      · rintro ⟨v, hv⟩
        rw [List.cons_eq_cons] at hv
        exact ⟨hv.1.symm, v, hv.2⟩

theorem strContains_iff (p : List Char) : ∀ s, strContains p s = true ↔ SubStr p s := by
  intro s
  induction s with
  | nil =>
    simp only [strContains, strStarts_iff, SubStr]
    constructor
    · rintro ⟨v, hv⟩
      exact ⟨[], v, hv⟩
    · rintro ⟨u, v, huv⟩
      rcases u with _ | ⟨c, u⟩
      · exact ⟨v, huv⟩
      · simp at huv
  | cons c cs ih =>
    simp only [strContains, Bool.or_eq_true, strStarts_iff, ih, SubStr]
    constructor
    · rintro (⟨v, hv⟩ | ⟨u, v, huv⟩)
      · exact ⟨[], v, hv⟩
      · exact ⟨c :: u, v, by simp [huv]⟩
    · rintro ⟨u, v, huv⟩
      rcases u with _ | ⟨d, u⟩
      · exact Or.inl ⟨v, huv⟩
      · rw [List.cons_append, List.cons_eq_cons] at huv
        exact Or.inr ⟨u, v, huv.2⟩

theorem subStr_nil {p : List Char} (h : SubStr p []) : p = [] := by
  obtain ⟨u, v, huv⟩ := h
  have := huv.symm
  simp only [List.append_eq_nil] at this
  exact this.2.1

theorem filter_and {α : Type} (p q : α → Bool) :
    ∀ l : List α, (l.filter p).filter q = l.filter (fun a => p a && q a) := by
  intro l
  induction l with
  | nil => rfl
  | cons a l ih =>
    cases hp : p a <;> cases hq : q a <;>
      simp [List.filter_cons, hp, hq, ih]

/-! ### Insertion sort lemmas -/

theorem mem_ordIns {α : Type} (le : α → α → Bool) (a x : α) :
    ∀ l : List α, x ∈ ordIns le a l ↔ x = a ∨ x ∈ l := by
  intro l
  induction l with
  | nil => simp [ordIns]
  | cons b l ih =>
    simp only [ordIns]
    split
    · simp
    · simp only [List.mem_cons, ih]
      tauto

theorem mem_insSort {α : Type} (le : α → α → Bool) (x : α) :
    ∀ l : List α, x ∈ insSort le l ↔ x ∈ l := by
  intro l
  induction l with
  | nil => simp [insSort]
  | cons a l ih =>
    simp only [insSort, mem_ordIns, ih, List.mem_cons]

theorem perm_ordIns {α : Type} (le : α → α → Bool) (a : α) :
    ∀ l : List α, (ordIns le a l).Perm (a :: l) := by
  intro l
  induction l with
  | nil => exact List.Perm.refl _
  | cons b l ih =>
    simp only [ordIns]
    split
    · exact List.Perm.refl _
    · exact (ih.cons b).trans (List.Perm.swap a b l)

theorem perm_insSort {α : Type} (le : α → α → Bool) :
    ∀ l : List α, (insSort le l).Perm l := by
  intro l
  induction l with
  | nil => exact List.Perm.refl _
  | cons a l ih =>
    exact (perm_ordIns le a (insSort le l)).trans (ih.cons a)

theorem pairwise_ordIns {α : Type} (le : α → α → Bool)
    (htot : ∀ a b, le a b = true ∨ le b a = true)
    (htrans : ∀ a b c, le a b = true → le b c = true → le a c = true)
    (a : α) :
    ∀ l : List α, l.Pairwise (fun x y => le x y = true) →
      (ordIns le a l).Pairwise (fun x y => le x y = true) := by
  intro l
  induction l with
  | nil => simp [ordIns]
  | cons b l ih =>
    intro hl
    rw [List.pairwise_cons] at hl
    simp only [ordIns]
    split
    case isTrue h =>
      refine List.Pairwise.cons ?_ (List.pairwise_cons.mpr hl)
      intro y hy
      rcases List.mem_cons.mp hy with rfl | hy
      · exact h
      · exact htrans a b y h (hl.1 y hy)
    case isFalse h =>
      have hba : le b a = true := by
        rcases htot a b with h1 | h1
        · exact absurd h1 h
        · exact h1
      refine List.Pairwise.cons ?_ (ih hl.2)
      intro y hy
      rcases (mem_ordIns le a y l).mp hy with rfl | hy
      · exact hba
      · exact hl.1 y hy

theorem pairwise_insSort {α : Type} (le : α → α → Bool)
    (htot : ∀ a b, le a b = true ∨ le b a = true)
    (htrans : ∀ a b c, le a b = true → le b c = true → le a c = true) :
    ∀ l : List α, (insSort le l).Pairwise (fun x y => le x y = true) := by
  intro l
  induction l with
  | nil => simp [insSort]
  | cons a l ih =>
    exact pairwise_ordIns le htot htrans a (insSort le l) ih

theorem pairwise_conj {α : Type} {R S : α → α → Prop} :
    ∀ l : List α, l.Pairwise R → l.Pairwise S →
      l.Pairwise (fun a b => R a b ∧ S a b) := by
  intro l
  induction l with
  | nil =>
    intro _ _
    exact List.Pairwise.nil
  | cons a l ih =>
    intro h1 h2
    rw [List.pairwise_cons] at h1 h2
    exact List.Pairwise.cons (fun b hb => ⟨h1.1 b hb, h2.1 b hb⟩) (ih h1.2 h2.2)

/-! ### Lexicographic string order lemmas -/

theorem strLe_total : ∀ a b : List Char, strLe a b = true ∨ strLe b a = true := by
  intro a
  induction a with
  | nil =>
    intro b
    left
    simp [strLe]
  | cons x as ih =>
    intro b
    cases b with
    | nil =>
      right
      simp [strLe]
    | cons y bs =>
      simp only [strLe]
      rcases lt_trichotomy x y with h | h | h
      · left
        simp [h]
      · subst h
        simpa [lt_irrefl] using ih bs
      · right
        simp [h]

theorem strLe_trans : ∀ a b c : List Char,
    strLe a b = true → strLe b c = true → strLe a c = true := by
  intro a
  induction a with
  | nil =>
    intro b c _ _
    simp [strLe]
  | cons x as ih =>
    intro b c hab hbc
    cases b with
    | nil => simp [strLe] at hab
    | cons y bs =>
      cases c with
      | nil => simp [strLe] at hbc
      | cons z cs =>
        simp only [strLe] at hab hbc ⊢
        rcases lt_trichotomy x y with h1 | h1 | h1
        · rcases lt_trichotomy y z with h2 | h2 | h2
          · simp [h1.trans h2]
          · subst h2
            simp [h1]
          · simp [h1, not_lt_of_gt h1] at hab
            rcases lt_trichotomy x z with h3 | h3 | h3
            · simp [h3]
            · subst h3
              simp [h2, not_lt_of_gt h2] at hbc
            · simp [h2, not_lt_of_gt h2] at hbc
        · subst h1
          rcases lt_trichotomy x z with h3 | h3 | h3
          · simp [h3]
          · subst h3
            simp [lt_irrefl] at hab hbc ⊢
            exact ih _ _ hab hbc
          · simp [h3, not_lt_of_gt h3] at hbc
        · simp [h1, not_lt_of_gt h1] at hab

theorem strLe_both_eq : ∀ a b : List Char,
    strLe a b = true → strLe b a = true → a = b := by
  intro a
  induction a with
  | nil =>
    intro b _ hba
    cases b with
    | nil => rfl
    | cons y bs => simp [strLe] at hba
  | cons x as ih =>
    intro b hab hba
    cases b with
    | nil => simp [strLe] at hab
    | cons y bs =>
      simp only [strLe] at hab hba
      rcases lt_trichotomy x y with h | h | h
      · simp [h, not_lt_of_gt h] at hba
      · subst h
        simp [lt_irrefl] at hab hba
        rw [ih bs hab hba]
      · simp [h, not_lt_of_gt h] at hab

/-! ### Sort-key order lemmas for the aggregate rows -/

theorem aggLeB_total : ∀ a b : TeamAgg, aggLeB a b = true ∨ aggLeB b a = true := by
  intro a b
  unfold aggLeB
  cases a.avg_height_in with
  | none =>
    cases b.avg_height_in with
    | none => simp
    | some y => simp
  | some x =>
    cases b.avg_height_in with
    | none => simp
    | some y =>
      rcases le_total y x with h | h
      · left
        simp [h]
      · right
        simp [h]

theorem aggLeB_trans : ∀ a b c : TeamAgg,
    aggLeB a b = true → aggLeB b c = true → aggLeB a c = true := by
  intro a b c hab hbc
  unfold aggLeB at hab hbc ⊢
  cases ha : a.avg_height_in with
  | none =>
    cases hb : b.avg_height_in with
    | none =>
      rw [ha, hb] at hab
      rw [hb] at hbc
      cases hc : c.avg_height_in with
      | none => simp
      | some z =>
        rw [hc] at hbc
        simp at hbc
    | some y =>
      rw [ha, hb] at hab
      simp at hab
  | some x =>
    cases hc : c.avg_height_in with
    | none => simp
    | some z =>
      cases hb : b.avg_height_in with
      | none =>
        rw [hb, hc] at hbc
        simp at hbc
      | some y =>
        rw [ha, hb] at hab
        rw [hb, hc] at hbc
        simp only [decide_eq_true_eq] at hab hbc ⊢
        exact hbc.trans hab

/-! ### First-seen team list lemmas -/

theorem firstSeenTeams_aux_nodup :
    ∀ (l : List PRecord) (acc : List (List Char)), acc.Nodup →
      (l.foldl (fun acc r => if r.team ∈ acc then acc else acc ++ [r.team]) acc).Nodup := by
  intro l
  induction l with
  | nil =>
    intro acc h
    exact h
  | cons r l ih =>
    intro acc h
    simp only [List.foldl_cons]
    split
    · exact ih acc h
    case isFalse hmem =>
      exact ih (acc ++ [r.team]) (by simp [List.nodup_append, h, hmem])

theorem firstSeenTeams_nodup (l : List PRecord) : (firstSeenTeams l).Nodup :=
  firstSeenTeams_aux_nodup l [] List.nodup_nil

/-! ### Aggregator: relating the sequential filters to the interval predicate -/

theorem filtered_rows (df : List PRecord) (ymin ymax : Option Int) :
    (filterYearMax ymax (filterYearMin ymin df)).filter (fun r => r.is_pg)
      = df.filter (fun r => inRangeB ymin ymax r && r.is_pg) := by
  cases ymin with
  | none =>
    cases ymax with
    | none =>
      simp [filterYearMin, filterYearMax, inRangeB]
    | some y2 =>
      simp [filterYearMin, filterYearMax, inRangeB, filter_and, Bool.and_comm]
  | some y1 =>
    cases ymax with
    | none =>
      simp [filterYearMin, filterYearMax, inRangeB, filter_and, Bool.and_comm]
    | some y2 =>
      simp [filterYearMin, filterYearMax, inRangeB, filter_and, Bool.and_assoc,
        Bool.and_comm, Bool.and_left_comm]

theorem readF_append (s : List (List PRecord)) (f : List PRecord) :
    ∀ n : Nat, n < s.length → readF (s ++ [f]) n = readF s n := by
  unfold readF
  induction s with
  | nil =>
    intro n h
    exact absurd h (Nat.not_lt_zero n)
  | cons a s ih =>
    intro n h
    cases n with
    | zero => rfl
    | succ n =>
      simp only [List.cons_append, List.getD_cons_succ]
      exact ih n (Nat.lt_of_succ_lt_succ h)

theorem readF_alloc (s : List (List PRecord)) (f : List PRecord) :
    readF (s ++ [f]) s.length = f := by
  unfold readF
  induction s with
  | nil => rfl
  | cons a s ih =>
    simpa only [List.cons_append, List.length_cons, List.getD_cons_succ] using ih

/-! ## Claim theorems -/

/-- Claim C5: the Aggregator keeps exactly the records whose year lies in
the inclusive interval `[year_min, year_max]` (an absent bound being
unbounded on that side): running it equals running it boundlessly on the
pre-restricted dataset, so out-of-range records are excluded from every
later stage. -/
theorem year_filter_spec (df : List PRecord) (ymin ymax : Option Int) :
    get_avg_pg_height_by_team df ymin ymax
      = get_avg_pg_height_by_team (df.filter (fun r => inRangeB ymin ymax r)) none none := by
  unfold get_avg_pg_height_by_team
  rw [filtered_rows]
  congr 1
  rw [show filterYearMax none (filterYearMin none (df.filter (fun r => inRangeB ymin ymax r)))
      = df.filter (fun r => inRangeB ymin ymax r) from rfl]
  rw [filter_and]

/-- Claim C6: when no record passes both the year filter and the
point-guard filter, the Aggregator returns the empty sequence (a normal
result, not an error — totality of the embedding covers the latter). -/
theorem empty_result_spec (df : List PRecord) (ymin ymax : Option Int)
    (h : df.filter (fun r => inRangeB ymin ymax r && r.is_pg) = []) :
    get_avg_pg_height_by_team df ymin ymax = [] := by
  unfold get_avg_pg_height_by_team
  rw [filtered_rows, h]
  rfl

/-- Witness for C6 at a concrete dataset: a 1995 record with
`year_min = 2000` leaves no qualifying rows, and the output is empty. -/
theorem empty_result_spec_witness :
    get_avg_pg_height_by_team
      [⟨1995, "A".data, some ("X".data), none, some 70, true⟩] (some 2000) none = [] :=
  empty_result_spec _ (some 2000) none (by decide)

/-- Claim C1 (amended): every output row's mean is the arithmetic mean of
the known heights among that team's filtered point-guard records — but
`count_pgs` counts the team's filtered point-guard records with a
non-null `player_name`, so records with unknown height still count
toward it (pandas `count` on the `player_name` column). -/
theorem count_pgs_spec (df : List PRecord) (ymin ymax : Option Int) (t : TeamAgg)
    (ht : t ∈ get_avg_pg_height_by_team df ymin ymax) :
    t.count_pgs = ((df.filter
        (fun r => inRangeB ymin ymax r && r.is_pg && r.team == t.team)).filter
        (fun r => r.player_name.isSome)).length ∧
    t.avg_height_in =
      (let hs := (df.filter
          (fun r => inRangeB ymin ymax r && r.is_pg && r.team == t.team)).filterMap
          (fun r => r.height_inches);
        if hs.isEmpty then none else some (hs.sum / (hs.length : ℚ))) := by
  unfold get_avg_pg_height_by_team aggCore at ht
  rw [filtered_rows] at ht
  split at ht
  · exact absurd ht (List.not_mem_nil t)
  · rw [mem_insSort] at ht
    obtain ⟨k, hk, rfl⟩ := List.mem_map.mp ht
    have hteam : (groupAgg (df.filter (fun r => inRangeB ymin ymax r && r.is_pg)) k).team = k := rfl
    constructor
    · simp only [hteam]
      show (((df.filter (fun r => inRangeB ymin ymax r && r.is_pg)).filter
          (fun r => r.team == k)).filter (fun r => r.player_name.isSome)).length = _
      rw [filter_and (fun r => inRangeB ymin ymax r && r.is_pg) (fun r => r.team == k) df]
    · simp only [hteam]
      show (if ((df.filter (fun r => inRangeB ymin ymax r && r.is_pg)).filter
            (fun r => r.team == k)).filterMap (fun r => r.height_inches) |>.isEmpty
          then none
          else some ((((df.filter (fun r => inRangeB ymin ymax r && r.is_pg)).filter
            (fun r => r.team == k)).filterMap (fun r => r.height_inches)).sum /
            ((((df.filter (fun r => inRangeB ymin ymax r && r.is_pg)).filter
            (fun r => r.team == k)).filterMap (fun r => r.height_inches)).length : ℚ))) = _
      rw [filter_and]

/-- Witness for C1's amended theorem at a concrete input: a single
point-guard record with an unknown height yields the aggregate row with
`count_pgs = 1` (the record counts despite contributing no height). -/
theorem count_pgs_spec_witness :
    (⟨"A".data, none, 1⟩ : TeamAgg).count_pgs =
      ((([⟨2000, "A".data, some ("X".data), some ("Point Guard".data), none, true⟩] :
          List PRecord).filter
        (fun r => inRangeB none none r && r.is_pg && r.team == ("A".data))).filter
        (fun r => r.player_name.isSome)).length ∧
    (⟨"A".data, none, 1⟩ : TeamAgg).avg_height_in =
      (let hs := (([⟨2000, "A".data, some ("X".data), some ("Point Guard".data), none, true⟩] :
          List PRecord).filter
        (fun r => inRangeB none none r && r.is_pg && r.team == ("A".data))).filterMap
        (fun r => r.height_inches);
        if hs.isEmpty then none else some (hs.sum / (hs.length : ℚ))) :=
  count_pgs_spec
    [⟨2000, "A".data, some ("X".data), some ("Point Guard".data), none, true⟩]
    none none ⟨"A".data, none, 1⟩ (by decide)

/-- Counterexample to Claim C1 as stated: in a dataset whose single
point-guard record has an unknown height, the output row reports
`count_pgs = 1` even though zero point-guard records have a known
height, so the count does not equal the number of records contributing
to the average. -/
theorem count_pgs_counts_unknown_height :
    (get_avg_pg_height_by_team
        [⟨2000, "A".data, some ("X".data), some ("Point Guard".data), none, true⟩]
        none none).map (fun t => t.count_pgs) = [1] ∧
    (([⟨2000, "A".data, some ("X".data), some ("Point Guard".data), none, true⟩] :
        List PRecord).filter
      (fun r => r.is_pg && r.height_inches.isSome)).length = 0 := by
  exact ⟨by decide, by decide⟩

/-- Claim C2 (amended): the Aggregator's output is sorted descending by
average height (rows with no computable average last), and the function
is deterministic, so repeated runs on an unchanged dataset agree; but
equal-average teams are not guaranteed to retain their first-seen
relative order from the input (the counterexample), and no particular
tie order is asserted — `sort_values` with its default unstable
quicksort promises only a sorted permutation.  This sortedness statement
is insensitive to tie order, so it holds for every sorted permutation
the real sort could produce. -/
theorem agg_sorted_spec (df : List PRecord) (ymin ymax : Option Int) :
    (get_avg_pg_height_by_team df ymin ymax).Pairwise
      (fun a b => aggLeB a b = true) := by
  unfold get_avg_pg_height_by_team aggCore
  split
  · exact List.Pairwise.nil
  · exact pairwise_insSort aggLeB aggLeB_total aggLeB_trans _

/-- Counterexample to Claim C2 as stated: team `b` is seen first in the
input, team `a` second, both with average height 72; the output lists
`a` before `b`, because grouping orders teams by ascending name — the
tied teams do not retain their first-seen relative order. -/
theorem agg_tie_order_counterexample :
    ([⟨2000, "b".data, some ("Y".data), some ("Point Guard".data), some 72, true⟩,
      ⟨2000, "a".data, some ("X".data), some ("Point Guard".data), some 72, true⟩] :
      List PRecord).map (fun r => r.team) = ["b".data, "a".data] ∧
    get_avg_pg_height_by_team
      [⟨2000, "b".data, some ("Y".data), some ("Point Guard".data), some 72, true⟩,
       ⟨2000, "a".data, some ("X".data), some ("Point Guard".data), some 72, true⟩]
      none none
    = [⟨"a".data, some 72, 1⟩, ⟨"b".data, some 72, 1⟩] := by
  refine ⟨by decide, ?_⟩
  have hga : groupAgg
      [⟨2000, "b".data, some ("Y".data), some ("Point Guard".data), some 72, true⟩,
       ⟨2000, "a".data, some ("X".data), some ("Point Guard".data), some 72, true⟩]
      ("a".data) = ⟨"a".data, some 72, 1⟩ := by
    show (⟨"a".data, some ((([(72 : ℚ)]).sum) / ((([(72 : ℚ)]).length : Nat) : ℚ)), 1⟩ :
      TeamAgg) = _
    norm_num [TeamAgg.mk.injEq]
  have hgb : groupAgg
      [⟨2000, "b".data, some ("Y".data), some ("Point Guard".data), some 72, true⟩,
       ⟨2000, "a".data, some ("X".data), some ("Point Guard".data), some 72, true⟩]
      ("b".data) = ⟨"b".data, some 72, 1⟩ := by
    show (⟨"b".data, some ((([(72 : ℚ)]).sum) / ((([(72 : ℚ)]).length : Nat) : ℚ)), 1⟩ :
      TeamAgg) = _
    norm_num [TeamAgg.mk.injEq]
  show insSort aggLeB
      [groupAgg [⟨2000, "b".data, some ("Y".data), some ("Point Guard".data), some 72, true⟩,
        ⟨2000, "a".data, some ("X".data), some ("Point Guard".data), some 72, true⟩] ("a".data),
       groupAgg [⟨2000, "b".data, some ("Y".data), some ("Point Guard".data), some 72, true⟩,
        ⟨2000, "a".data, some ("X".data), some ("Point Guard".data), some 72, true⟩] ("b".data)]
      = _
  rw [hga, hgb]
  show ordIns aggLeB ⟨"a".data, some 72, 1⟩ [⟨"b".data, some 72, 1⟩] = _
  simp only [ordIns]
  rw [show aggLeB ⟨"a".data, some 72, 1⟩ ⟨"b".data, some 72, 1⟩ = true from
    decide_eq_true (le_refl (72 : ℚ))]
  simp only [if_true]

/-- Claim C10: the Aggregator never mutates its input DataFrame.  In the
store-level embedding, where `df.copy()` and every selection allocate
fresh frames, the caller's frame is unchanged after the call, and the
result is a function of that frame's value alone — so repeated queries
with identical bounds over the unchanged dataset yield identical
output. -/
theorem agg_exec_frame (s : List (List PRecord)) (hdf : Nat) (ymin ymax : Option Int)
    (h : hdf < s.length) :
    readF (agg_exec s hdf ymin ymax).1 hdf = readF s hdf ∧
    (agg_exec s hdf ymin ymax).2 = get_avg_pg_height_by_team (readF s hdf) ymin ymax := by
  constructor
  · show readF ((((s ++ [readF s hdf]) ++ [_]) ++ [_]) ++ [_]) hdf = readF s hdf
    rw [readF_append _ _ hdf (by simp only [List.length_append]; omega)]
    rw [readF_append _ _ hdf (by simp only [List.length_append]; omega)]
    rw [readF_append _ _ hdf (by simp only [List.length_append]; omega)]
    rw [readF_append _ _ hdf h]
  · show aggCore (readF (_ ++ [(readF ((s ++ [readF s hdf]) ++
        [filterYearMin ymin (readF (s ++ [readF s hdf]) s.length)] ++
        [filterYearMax ymax (readF ((s ++ [readF s hdf]) ++
          [filterYearMin ymin (readF (s ++ [readF s hdf]) s.length)])
          (s ++ [readF s hdf]).length)])
        ((s ++ [readF s hdf]) ++
        [filterYearMin ymin (readF (s ++ [readF s hdf]) s.length)]).length).filter
        (fun r => r.is_pg)]) _) = _
    rw [readF_alloc, readF_alloc, readF_alloc, readF_alloc]
    rfl

/-- Witness for C10 at a concrete one-frame store. -/
theorem agg_exec_frame_witness :
    readF (agg_exec [[⟨2000, "A".data, some ("X".data), none, none, true⟩]] 0
        none none).1 0
      = readF [[⟨2000, "A".data, some ("X".data), none, none, true⟩]] 0 ∧
    (agg_exec [[⟨2000, "A".data, some ("X".data), none, none, true⟩]] 0 none none).2
      = get_avg_pg_height_by_team
          (readF [[⟨2000, "A".data, some ("X".data), none, none, true⟩]] 0) none none :=
  agg_exec_frame [[⟨2000, "A".data, some ("X".data), none, none, true⟩]] 0 none none
    (by decide)

/-- Claim C4: the Position Classifier is false on unknown or empty input;
true when the lowercased text contains `point guard` or `pg` as a
substring anywhere; otherwise true exactly when it contains `guard` but
neither `forward` nor `center`; and it decides the six cited examples
accordingly. -/
theorem is_point_guard_spec :
    is_point_guard none = false ∧
    (∀ s : List Char,
      is_point_guard (some s) = true ↔
        (SubStr ("point guard".data) (s.map Char.toLower) ∨
         SubStr ("pg".data) (s.map Char.toLower) ∨
         (SubStr ("guard".data) (s.map Char.toLower) ∧
          ¬ SubStr ("forward".data) (s.map Char.toLower) ∧
          ¬ SubStr ("center".data) (s.map Char.toLower)))) ∧
    is_point_guard (some ("Point Guard".data)) = true ∧
    is_point_guard (some ("Shooting Guard".data)) = true ∧
    is_point_guard (some ("Guard-Forward".data)) = false ∧
    is_point_guard (some ("Power Forward".data)) = false ∧
    is_point_guard (some ("PG".data)) = true := by
  refine ⟨rfl, ?_, by decide, by decide, by decide, by decide, by decide⟩
  intro s
  cases s with
  | nil =>
    constructor
    · intro h
      simp [is_point_guard] at h
    · rintro (h | h | ⟨h, _, _⟩) <;>
        exact absurd (subStr_nil h) (by decide)
  | cons c cs =>
    rw [← strContains_iff, ← strContains_iff, ← strContains_iff, ← strContains_iff,
      ← strContains_iff]
    cases hpc : strContains ("point guard".data) ((c :: cs).map Char.toLower) <;>
    cases hpg : strContains ("pg".data) ((c :: cs).map Char.toLower) <;>
    cases hg : strContains ("guard".data) ((c :: cs).map Char.toLower) <;>
    cases hf : strContains ("forward".data) ((c :: cs).map Char.toLower) <;>
    cases hc2 : strContains ("center".data) ((c :: cs).map Char.toLower) <;>
    simp only [is_point_guard, List.isEmpty_cons, Bool.false_eq_true,
      hpc, hpg, hg, hf, hc2] <;>
    simp

/-! ### Height Parser lemmas -/

theorem head_dropWhile (p : Char → Bool) :
    ∀ (l : List Char) (c : Char), (l.dropWhile p).head? = some c → p c = false := by
  intro l
  induction l with
  | nil =>
    intro c h
    simp [List.dropWhile] at h
  | cons a l ih =>
    intro c h
    rw [List.dropWhile_cons] at h
    split at h
    · exact ih c h
    case isFalse hpa =>
      simp only [List.head?_cons, Option.some.injEq] at h
      subst h
      exact Bool.not_eq_true _ |>.mp hpa

theorem takeWhile_app (p : Char → Bool) (f r : List Char)
    (hf : ∀ c ∈ f, p c = true) (hr : ∀ c, r.head? = some c → p c = false) :
    (f ++ r).takeWhile p = f ∧ (f ++ r).dropWhile p = r := by
  induction f with
  | nil =>
    cases r with
    | nil => exact ⟨rfl, rfl⟩
    | cons c cs =>
      simp only [List.nil_append, List.takeWhile_cons, List.dropWhile_cons,
        hr c rfl]
      exact ⟨rfl, rfl⟩
  | cons a f ih =>
    have ha : p a = true := hf a (List.mem_cons_self a f)
    have ih2 := ih (fun c hc => hf c (List.mem_cons_of_mem a hc))
    simp only [List.cons_append, List.takeWhile_cons, List.dropWhile_cons, ha,
      if_true, ih2.1, ih2.2]
    exact ⟨trivial, trivial⟩

theorem matchAt_some (s : List Char) (x y : Nat) (h : matchAt s = some (x, y)) :
    ∃ f i b, s = f ++ ('-' :: (i ++ b)) ∧ DigitsNE f ∧ DigitsNE i ∧
      (∀ c, b.head? = some c → c.isDigit = false) ∧
      x = digitsToNat f ∧ y = digitsToNat i := by
  unfold matchAt at h
  split at h
  case h_2 => exact absurd h (by simp)
  case h_1 c r2 heq =>
    split at h
    case isFalse => exact absurd h (by simp)
    case isTrue hc =>
      subst hc
      split at h
      · exact absurd h (by simp)
      case isFalse hfne =>
        split at h
        · exact absurd h (by simp)
        case isFalse hine =>
          simp only [Option.some.injEq, Prod.mk.injEq] at h
          refine ⟨s.takeWhile (fun c => c.isDigit), r2.takeWhile (fun c => c.isDigit),
            r2.dropWhile (fun c => c.isDigit), ?_, ?_, ?_, ?_, h.1.symm, h.2.symm⟩
          · conv_rhs => rw [List.takeWhile_append_dropWhile, ← heq,
              List.takeWhile_append_dropWhile]
          · exact ⟨fun hnil => hfne (by simp [hnil]),
              fun c hc => List.mem_takeWhile_imp hc⟩
          · exact ⟨fun hnil => hine (by simp [hnil]),
              fun c hc => List.mem_takeWhile_imp hc⟩
          · exact head_dropWhile _ r2

theorem matchAt_of_decomp (f i b : List Char) (hf : DigitsNE f) (hi : DigitsNE i) :
    matchAt (f ++ ('-' :: (i ++ b))) ≠ none := by
  have hhead : ∀ c : Char,
      (('-' :: (i ++ b)).head? = some c) → (fun c => c.isDigit) c = false := by
    intro c hc
    simp only [List.head?_cons, Option.some.injEq] at hc
    subst hc
    decide
  have hsplit := takeWhile_app (fun c => c.isDigit) f ('-' :: (i ++ b)) hf.2 hhead
  unfold matchAt
  rw [hsplit.2, hsplit.1]
  split
  case h_1 c r2 heq =>
    rw [List.cons_eq_cons] at heq
    obtain ⟨h1, h2⟩ := heq
    subst h1
    subst h2
    rw [if_pos rfl]
    rw [if_neg (by simp [hf.1])]
    rw [if_neg ?hne]
    case hne =>
      cases i with
      | nil => exact absurd rfl hi.1
      | cons ci it =>
        have hci : ci.isDigit = true := hi.2 ci (List.mem_cons_self ci it)
        simp [List.takeWhile_cons, hci]
    simp
  case h_2 heq => simp at heq

theorem searchFI_spec : ∀ s : List Char,
    (searchFI s = none → ¬ HasPat s) ∧
    (∀ x y, searchFI s = some (x, y) →
      ∃ a f i b, s = a ++ (f ++ ('-' :: (i ++ b))) ∧ DigitsNE f ∧ DigitsNE i ∧
        (∀ c, b.head? = some c → c.isDigit = false) ∧
        x = digitsToNat f ∧ y = digitsToNat i ∧
        ∀ a2 f2 i2 b2,
          (s = a2 ++ (f2 ++ ('-' :: (i2 ++ b2))) ∧ DigitsNE f2 ∧ DigitsNE i2) →
          a.length ≤ a2.length) := by
  intro s
  induction s with
  | nil =>
    constructor
    · rintro - ⟨a, f, i, b, heq, hf, hi⟩
      rw [List.nil_eq, List.append_eq_nil, List.append_eq_nil] at heq
      simp at heq
    · intro x y h
      simp [searchFI] at h
  | cons c cs ih =>
    cases hm : matchAt (c :: cs) with
    | some v =>
      have hs : searchFI (c :: cs) = some v := by
        simp [searchFI, hm]
      constructor
      · intro h
        rw [hs] at h
        exact absurd h (by simp)
      · intro x y h
        rw [hs] at h
        obtain rfl := Option.some.inj h
        obtain ⟨f, i, b, heq, hf, hi, hb, hx, hy⟩ := matchAt_some (c :: cs) x y hm
        exact ⟨[], f, i, b, by simpa using heq, hf, hi, hb, hx, hy,
          fun a2 _ _ _ _ => Nat.zero_le _⟩
    | none =>
      have hs : searchFI (c :: cs) = searchFI cs := by
        simp [searchFI, hm]
      constructor
      · intro h
        rw [hs] at h
        rintro ⟨a, f, i, b, heq, hf, hi⟩
        cases a with
        | nil =>
          rw [List.nil_append] at heq
          rw [heq] at hm
          exact matchAt_of_decomp f i b hf hi hm
        | cons a0 a2 =>
          rw [List.cons_append, List.cons_eq_cons] at heq
          exact (ih.1 h) ⟨a2, f, i, b, heq.2, hf, hi⟩
      · intro x y h
        rw [hs] at h
        obtain ⟨a, f, i, b, heq, hf, hi, hb, hx, hy, hmin⟩ := ih.2 x y h
        refine ⟨c :: a, f, i, b, by simp [heq], hf, hi, hb, hx, hy, ?_⟩
        rintro a2 f2 i2 b2 ⟨heq2, hf2, hi2⟩
        cases a2 with
        | nil =>
          rw [List.nil_append] at heq2
          rw [heq2] at hm
          exact absurd hm (matchAt_of_decomp f2 i2 b2 hf2 hi2)
        | cons a20 a21 =>
          rw [List.cons_append, List.cons_eq_cons] at heq2
          simpa using Nat.succ_le_succ (hmin a21 f2 i2 b2 ⟨heq2.2, hf2, hi2⟩)

/-- Claim C3: the Height Parser succeeds exactly on fragments containing
a `<digits>-<digits>` substring; on success the value is
`feet*12 + inches` read literally (not clamped) from the first such
match — leftmost start, greedy digit runs; on failure it returns
`none`.  The parser is a total function, so it raises no exception. -/
theorem height_parser_spec : ∀ s : List Char,
    ((heightOf s).isSome ↔ HasPat s) ∧
    (∀ v, heightOf s = some v → FirstMatchVal s v) := by
  intro s
  constructor
  · constructor
    · intro h
      cases hm : searchFI s with
      | none =>
        rw [heightOf, hm] at h
        simp at h
      | some p =>
        obtain ⟨a, f, i, b, heq, hf, hi, -⟩ := (searchFI_spec s).2 p.1 p.2 (by simpa using hm)
        exact ⟨a, f, i, b, heq, hf, hi⟩
    · intro h
      cases hm : searchFI s with
      | none => exact absurd h ((searchFI_spec s).1 hm)
      | some p =>
        rw [heightOf, hm]
        rfl
  · intro v h
    cases hm : searchFI s with
    | none =>
      rw [heightOf, hm] at h
      exact absurd h (by simp)
    | some p =>
      rw [heightOf, hm] at h
      simp only [Option.map_some', Option.some.injEq] at h
      obtain ⟨a, f, i, b, heq, hf, hi, hb, hx, hy, hmin⟩ :=
        (searchFI_spec s).2 p.1 p.2 (by simpa using hm)
      exact ⟨a, f, i, b, heq, hf, hi, hb, by rw [← h, hx, hy], hmin⟩

/-- Witness for C3 at a concrete fragment: in `"6-13"` the parser takes
the inches group literally and returns `6*12 + 13 = 85`. -/
theorem height_parser_spec_witness :
    heightOf ("6-13".data) = some 85 ∧ FirstMatchVal ("6-13".data) 85 :=
  ⟨by decide, (height_parser_spec ("6-13".data)).2 85 (by decide)⟩

/-! ### Query Year Extractor lemmas -/

theorem boundBefore_cons (prev : Option Char) (c : Char) (a : List Char) :
    boundBefore prev (c :: a) = boundBefore (some c) a := by
  unfold boundBefore
  cases a with
  | nil => rfl
  | cons d a2 =>
    rw [List.getLast?_cons_cons]
    cases hgl : (d :: a2).getLast? with
    | none => simp at hgl
    | some x => rfl

theorem hasYearFrom_cons (prev : Option Char) (c1 : Char) (t1 : List Char) :
    HasYearFrom prev (c1 :: t1) ↔
      ((∃ c2 c3 c4 b, t1 = c2 :: c3 :: c4 :: b ∧ yearStart c1 c2 = true ∧
        c3.isDigit = true ∧ c4.isDigit = true ∧ boundAfter b = true ∧
        prevOk prev = true) ∨
       HasYearFrom (some c1) t1) := by
  constructor
  · rintro ⟨a, d1, d2, d3, d4, b, heq, hys, h3, h4, hba, hbb⟩
    cases a with
    | nil =>
      rw [List.nil_append, List.cons_eq_cons] at heq
      obtain ⟨rfl, rfl⟩ := heq
      exact Or.inl ⟨d2, d3, d4, b, rfl, hys, h3, h4, hba, hbb⟩
    | cons a0 a2 =>
      rw [List.cons_append, List.cons_eq_cons] at heq
      obtain ⟨rfl, rfl⟩ := heq
      rw [boundBefore_cons] at hbb
      exact Or.inr ⟨a2, d1, d2, d3, d4, b, rfl, hys, h3, h4, hba, hbb⟩
  · rintro (⟨c2, c3, c4, b, ht, hys, h3, h4, hba, hpv⟩ | ⟨a, d1, d2, d3, d4, b, heq, hys, h3, h4, hba, hbb⟩)
    · exact ⟨[], c1, c2, c3, c4, b, by rw [ht, List.nil_append], hys, h3, h4, hba, hpv⟩
    · refine ⟨c1 :: a, d1, d2, d3, d4, b, by rw [heq, List.cons_append], hys, h3, h4, hba, ?_⟩
      rw [boundBefore_cons]
      exact hbb

theorem hasYearFrom_nil (prev : Option Char) : ¬ HasYearFrom prev [] := by
  rintro ⟨a, d1, d2, d3, d4, b, heq, -⟩
  simp at heq

theorem findYears_iff :
    ∀ (n : Nat) (s : List Char), s.length ≤ n → ∀ prev : Option Char,
      (findYears prev s ≠ [] ↔ HasYearFrom prev s) := by
  intro n
  induction n with
  | zero =>
    intro s hlen prev
    cases s with
    | nil => simp [findYears, hasYearFrom_nil]
    | cons c t => simp at hlen
  | succ n ihn =>
    intro s hlen prev
    cases s with
    | nil => simp [findYears, hasYearFrom_nil]
    | cons c1 t1 =>
      rw [hasYearFrom_cons]
      cases t1 with
      | nil =>
        rw [show findYears prev [c1] = findYears (some c1) [] from by simp [findYears]]
        rw [ihn [] (by simp) (some c1)]
        constructor
        · exact Or.inr
        · rintro (⟨c2, c3, c4, b, ht, -⟩ | h)
          · simp at ht
          · exact h
      | cons c2 t2 =>
        cases t2 with
        | nil =>
          rw [show findYears prev [c1, c2] = findYears (some c1) [c2] from by
            simp [findYears]]
          rw [ihn [c2] (by simp at hlen ⊢; omega) (some c1)]
          constructor
          · exact Or.inr
          · rintro (⟨c2', c3, c4, b, ht, -⟩ | h)
            · simp at ht
            · exact h
        | cons c3 t3 =>
          cases t3 with
          | nil =>
            rw [show findYears prev [c1, c2, c3] = findYears (some c1) [c2, c3] from by
              simp [findYears]]
            rw [ihn [c2, c3] (by simp at hlen ⊢; omega) (some c1)]
            constructor
            · exact Or.inr
            · rintro (⟨c2', c3', c4, b, ht, -⟩ | h)
              · simp at ht
              · exact h
          | cons c4 rest =>
            by_cases hcond : (prevOk prev && yearStart c1 c2 && c3.isDigit &&
                c4.isDigit && boundAfter rest) = true
            · rw [show findYears prev (c1 :: c2 :: c3 :: c4 :: rest)
                  = yearVal c1 c2 c3 c4 :: findYears (some c4) rest from by
                simp [findYears, hcond]]
              simp only [Bool.and_eq_true] at hcond
              obtain ⟨⟨⟨⟨hpv, hys⟩, h3⟩, h4⟩, hba⟩ := hcond
              constructor
              · intro _
                exact Or.inl ⟨c2, c3, c4, rest, rfl, hys, h3, h4, hba, hpv⟩
              · intro _
                simp
            · rw [show findYears prev (c1 :: c2 :: c3 :: c4 :: rest)
                  = findYears (some c1) (c2 :: c3 :: c4 :: rest) from by
                simp [findYears, hcond]]
              rw [ihn (c2 :: c3 :: c4 :: rest) (by simp at hlen ⊢; omega) (some c1)]
              constructor
              · exact Or.inr
              · rintro (⟨c2', c3', c4', b, ht, hys, h3, h4, hba, hpv⟩ | h)
                · rw [List.cons_eq_cons] at ht
                  obtain ⟨rfl, ht⟩ := ht
                  rw [List.cons_eq_cons] at ht
                  obtain ⟨rfl, ht⟩ := ht
                  rw [List.cons_eq_cons] at ht
                  obtain ⟨rfl, rfl⟩ := ht
                  exact absurd (by simp [hpv, hys, h3, h4, hba]) hcond
                · exact h

theorem foldl_min_le_init : ∀ (ys : List Nat) (y : Nat), ys.foldl Nat.min y ≤ y := by
  intro ys
  induction ys with
  | nil => intro y; exact Nat.le_refl y
  | cons z ys ih =>
    intro y
    exact Nat.le_trans (ih (Nat.min y z)) (Nat.min_le_left y z)

theorem foldl_min_mem : ∀ (ys : List Nat) (y : Nat),
    ys.foldl Nat.min y = y ∨ ys.foldl Nat.min y ∈ ys := by
  intro ys
  induction ys with
  | nil => intro y; exact Or.inl rfl
  | cons z ys ih =>
    intro y
    rw [List.foldl_cons]
    rcases ih (Nat.min y z) with h | h
    · have hmz : Nat.min y z = y ∨ Nat.min y z = z := by
        by_cases hyz : y ≤ z
        · exact Or.inl (Nat.min_eq_left hyz)
        · exact Or.inr (Nat.min_eq_right (Nat.le_of_not_le hyz))
      rcases hmz with h2 | h2
      · exact Or.inl (by rw [h, h2])
      · rw [h, h2]
        exact Or.inr (List.mem_cons_self z ys)
    · exact Or.inr (List.mem_cons_of_mem z h)

theorem foldl_min_le_all : ∀ (ys : List Nat) (y z : Nat),
    z ∈ ys → ys.foldl Nat.min y ≤ z := by
  intro ys
  induction ys with
  | nil =>
    intro y z hz
    exact absurd hz (List.not_mem_nil z)
  | cons w ys ih =>
    intro y z hz
    rcases List.mem_cons.mp hz with rfl | hz
    · exact Nat.le_trans (foldl_min_le_init ys (Nat.min y z)) (Nat.min_le_right y z)
    · exact ih (Nat.min y w) z hz

theorem foldl_max_ge_init : ∀ (ys : List Nat) (y : Nat), y ≤ ys.foldl Nat.max y := by
  intro ys
  induction ys with
  | nil => intro y; exact Nat.le_refl y
  | cons z ys ih =>
    intro y
    exact Nat.le_trans (Nat.le_max_left y z) (ih (Nat.max y z))

theorem foldl_max_mem : ∀ (ys : List Nat) (y : Nat),
    ys.foldl Nat.max y = y ∨ ys.foldl Nat.max y ∈ ys := by
  intro ys
  induction ys with
  | nil => intro y; exact Or.inl rfl
  | cons z ys ih =>
    intro y
    rw [List.foldl_cons]
    rcases ih (Nat.max y z) with h | h
    · have hmz : Nat.max y z = y ∨ Nat.max y z = z := by
        by_cases hyz : z ≤ y
        · exact Or.inl (Nat.max_eq_left hyz)
        · exact Or.inr (Nat.max_eq_right (Nat.le_of_not_le hyz))
      rcases hmz with h2 | h2
      · exact Or.inl (by rw [h, h2])
      · rw [h, h2]
        exact Or.inr (List.mem_cons_self z ys)
    · exact Or.inr (List.mem_cons_of_mem z h)

theorem foldl_max_ge_all : ∀ (ys : List Nat) (y z : Nat),
    z ∈ ys → z ≤ ys.foldl Nat.max y := by
  intro ys
  induction ys with
  | nil =>
    intro y z hz
    exact absurd hz (List.not_mem_nil z)
  | cons w ys ih =>
    intro y z hz
    rcases List.mem_cons.mp hz with rfl | hz
    · exact Nat.le_trans (Nat.le_max_right y z) (foldl_max_ge_init ys (Nat.max y z))
    · exact ih (Nat.max y w) z hz

/-- Claim C7: the Query Year Extractor reports no range exactly when the
text contains no word-delimited 4-digit year starting with 19 or 20
(both bounds unknown in that case); otherwise it reports the minimum and
maximum over all matched years, so `year_min ≤ year_max` always, with
equality when exactly one year is matched, regardless of the order or
contiguity of the matches. -/
theorem parse_user_question_spec (q : List Char) :
    ((parse_user_question q).found_year_range = false ↔ ¬ HasYearFrom none q) ∧
    ((parse_user_question q).found_year_range = false →
      (parse_user_question q).year_min = none ∧
      (parse_user_question q).year_max = none) ∧
    ((parse_user_question q).found_year_range = true →
      ∃ m M, (parse_user_question q).year_min = some m ∧
        (parse_user_question q).year_max = some M ∧ m ≤ M ∧
        m ∈ findYears none q ∧ M ∈ findYears none q ∧
        ∀ y ∈ findYears none q, m ≤ y ∧ y ≤ M) := by
  have hiff := findYears_iff q.length q (Nat.le_refl _) none
  cases hq : findYears none q with
  | nil =>
    have hnot : ¬ HasYearFrom none q := fun hy => (hiff.mpr hy) hq
    refine ⟨by simp [parse_user_question, hq, hnot], ?_, ?_⟩
    · intro _
      simp [parse_user_question, hq]
    · intro hfound
      simp [parse_user_question, hq] at hfound
  | cons y ys =>
    have hy : HasYearFrom none q := hiff.mp (by simp [hq])
    refine ⟨by simp [parse_user_question, hq, hy], ?_, ?_⟩
    · intro hfound
      simp [parse_user_question, hq] at hfound
    · intro _
      refine ⟨ys.foldl Nat.min y, ys.foldl Nat.max y,
        by simp [parse_user_question, hq], by simp [parse_user_question, hq],
        ?_, ?_, ?_, ?_⟩
      · exact Nat.le_trans (foldl_min_le_init ys y) (foldl_max_ge_init ys y)
      · rcases foldl_min_mem ys y with h | h
        · rw [h]
          exact List.mem_cons_self y ys
        · exact List.mem_cons_of_mem y h
      · rcases foldl_max_mem ys y with h | h
        · rw [h]
          exact List.mem_cons_self y ys
        · exact List.mem_cons_of_mem y h
      · intro z hz
        rcases List.mem_cons.mp hz with rfl | hz
        · exact ⟨foldl_min_le_init ys z, foldl_max_ge_init ys z⟩
        · exact ⟨foldl_min_le_all ys y z hz, foldl_max_ge_all ys y z hz⟩

/-- Witness for C7 at a concrete question: `"from 2000 to 2010"` yields a
found range with `year_min = 2000` and `year_max = 2010`. -/
theorem parse_user_question_spec_witness :
    (parse_user_question ("from 2000 to 2010".data)).found_year_range = true ∧
    (∃ m M, (parse_user_question ("from 2000 to 2010".data)).year_min = some m ∧
      (parse_user_question ("from 2000 to 2010".data)).year_max = some M ∧ m ≤ M ∧
      m ∈ findYears none ("from 2000 to 2010".data) ∧
      M ∈ findYears none ("from 2000 to 2010".data) ∧
      ∀ y ∈ findYears none ("from 2000 to 2010".data), m ≤ y ∧ y ≤ M) :=
  ⟨by decide, (parse_user_question_spec ("from 2000 to 2010".data)).2.2 (by decide)⟩

/-! ### Draft Row Normalizer lemmas -/

theorem processRows_eq (year : Int) : ∀ rows : List Row,
    processRows year rows
      = (rows.filter (fun r => !(decide (("thead".data) ∈ r.classes)) &&
          decide (3 ≤ r.cells.length))).map (normRow year) := by
  intro rows
  induction rows with
  | nil => rfl
  | cons r rs ih =>
    by_cases hth : ("thead".data) ∈ r.classes
    · simp [processRows, hth, ih, List.filter_cons]
    · cases hc : r.cells with
      | nil => simp [processRows, hth, hc, ih, List.filter_cons]
      | cons c0 t0 =>
        cases t0 with
        | nil => simp [processRows, hth, hc, ih, List.filter_cons]
        | cons c1 t1 =>
          cases t1 with
          | nil => simp [processRows, hth, hc, ih, List.filter_cons]
          | cons c2 t2 =>
            have h3 : decide (3 ≤ (c0 :: c1 :: c2 :: t2).length) = true := by
              simp [List.length_cons]
            simp [processRows, hth, hc, ih, List.filter_cons, h3, normRow,
              List.getD_cons_zero, List.getD_cons_succ]

/-- Claim C8: the Draft Row Normalizer skips repeated-header rows
(`thead` class) and rows with fewer than three cells; every emitted
record takes pick, team and player name verbatim from the first three
cells' display text, and its profile link is present exactly when the
third cell has an anchor with a present, non-empty target; an absent
table yields the empty sequence. -/
theorem scrape_draft_rows_spec (year : Int) (rows : List Row) :
    scrape_draft_data year ⟨200, some ⟨some rows⟩⟩
      = Except.ok ((rows.filter (fun r => !(decide (("thead".data) ∈ r.classes)) &&
          decide (3 ≤ r.cells.length))).map (normRow year)) ∧
    scrape_draft_data year ⟨200, none⟩ = Except.ok [] ∧
    (∀ (c : Cell) (h : List Char),
      rowLink c = some h ↔ ∃ a : Anchor, c.anchor = some a ∧ a.href = some h ∧ h ≠ []) := by
  refine ⟨?_, rfl, ?_⟩
  · show Except.ok (processRows year rows) = _
    rw [processRows_eq]
  · intro c h
    constructor
    · intro hl
      cases hanch : c.anchor with
      | none => simp [rowLink, hanch] at hl
      | some a =>
        cases hhref : a.href with
        | none => simp [rowLink, hanch, hhref] at hl
        | some h2 =>
          simp only [rowLink, hanch, hhref] at hl
          split at hl
          · exact absurd hl (by simp)
          case isFalse hne =>
            obtain rfl := Option.some.inj hl
            exact ⟨a, rfl, hhref, fun hnil => by simp [hnil] at hne⟩
    · rintro ⟨a, ha, hh, hne⟩
      cases h with
      | nil => exact absurd rfl hne
      | cons h0 ht => simp [rowLink, ha, hh]

/-- Claim C9 evaluation: the failure paths of the two scrapers.  A
non-success status or an absent structural anchor yields an empty
sequence or unknown fields — except that a present stats table with no
`tbody` makes `scrape_draft_data` raise (`table.find('tbody')` is `None`
and `.find_all` on it raises `AttributeError`), modelled as
`Except.error ()`, contradicting the claim that such partial structure
degrades to an empty result. -/
theorem scrape_fault_paths :
    scrape_draft_data 1999 ⟨404, none⟩ = Except.ok [] ∧
    scrape_draft_data 1999 ⟨404, some ⟨none⟩⟩ = Except.ok [] ∧
    scrape_draft_data 1999 ⟨200, none⟩ = Except.ok [] ∧
    scrape_draft_data 1999 ⟨200, some ⟨none⟩⟩ = Except.error () ∧
    scrape_draft_data 1999 ⟨200, some ⟨some []⟩⟩ = Except.ok [] ∧
    scrape_player_details ⟨500, some []⟩ = (none, none) ∧
    scrape_player_details ⟨200, none⟩ = (none, none) ∧
    scrape_player_details ⟨200, some []⟩ = (none, none) :=
  ⟨rfl, rfl, rfl, rfl, rfl, rfl, rfl, rfl⟩

end NbaBi
